import Mathlib

/-!
Verification of the Synthase script-execution engine against its
natural-language specification.  The definitions below are shallow
embeddings of the TypeScript sources (`types.ts`, `synthase-utils.ts`,
`script-registry.ts`, `execution-limits.ts`, `synthase.ts`,
`script-validator.ts`); machine integers are modelled as `Nat`/`Int`
with explicit `% 2^32` where 32-bit overflow matters, JavaScript
numbers as rationals extended with `NaN`/`±Infinity`, and fallible
code as `Except String`.
-/

set_option autoImplicit false

namespace Synthase

/-! ## String helpers (JavaScript `String.prototype.includes`) -/

/-- The double-quote character. -/
def quoteD : Char := Char.ofNat 34

/-- The single-quote character. -/
def quoteS : Char := Char.ofNat 39

/-- The backtick character. -/
def quoteB : Char := Char.ofNat 96

/-- Boolean contiguous-substring test on character lists:
`containsSub hay pat` is true iff `pat` occurs contiguously in `hay`. -/
def containsSub (hay pat : List Char) : Bool :=
  match hay with
  | [] => pat.isEmpty
  | _ :: t => pat.isPrefixOf hay || containsSub t pat

/-- Model of JavaScript `hay.includes(pat)`. -/
def jsIncludes (hay pat : String) : Bool :=
  containsSub hay.data pat.data

theorem containsSub_nil (hay : List Char) : containsSub hay [] = true := by
  induction hay with
  | nil => rfl
  | cons c t ih => simp [containsSub, List.isPrefixOf]

theorem isPrefixOf_append {l s : List Char} (u : List Char)
    (h : l.isPrefixOf s = true) : l.isPrefixOf (s ++ u) = true := by
  rw [List.isPrefixOf_iff_prefix] at h ⊢
  exact h.trans (List.prefix_append s u)

theorem containsSub_append_right {hay pat : List Char} (hay2 : List Char)
    (h : containsSub hay pat = true) : containsSub (hay ++ hay2) pat = true := by
  induction hay with
  | nil =>
    simp [containsSub] at h
    subst h
    exact containsSub_nil hay2
  | cons c t ih =>
    simp only [containsSub, Bool.or_eq_true] at h ⊢
    rcases h with h | h
    · exact Or.inl (isPrefixOf_append hay2 h)
    · exact Or.inr (ih h)

theorem containsSub_append_left {hay2 pat : List Char} (hay : List Char)
    (h : containsSub hay2 pat = true) : containsSub (hay ++ hay2) pat = true := by
  induction hay with
  | nil => exact h
  | cons c t ih => simp only [List.cons_append, containsSub, Bool.or_eq_true]; exact Or.inr ih

/-! ## JavaScript value model

JavaScript numbers are modelled as rationals extended with `NaN` and the
two infinities (every IEEE double is rational, and the comparisons the
engine performs are exact).  Objects and arrays carry their structure;
strict equality on them is modelled as `false` (reference equality of
two independently produced values), which is the only way the engine
ever compares them. -/

inductive JsNum where
  | nan
  | posInf
  | negInf
  | fin (q : ℚ)
deriving DecidableEq, Repr

/-- JavaScript `<` on numbers: `NaN` compares false with everything. -/
def jsLt : JsNum → JsNum → Bool
  | .nan, _ => false
  | _, .nan => false
  | .negInf, .negInf => false
  | .negInf, _ => true
  | _, .negInf => false
  | .posInf, _ => false
  | .fin _, .posInf => true
  | .fin a, .fin b => decide (a < b)

/-- JavaScript `>` on numbers. -/
def jsGt (a b : JsNum) : Bool := jsLt b a

inductive JsVal where
  | vundefined
  | vnull
  | vnum (n : JsNum)
  | vstr (s : String)
  | vbool (b : Bool)
  | vobj (fields : List (String × JsVal))
  | varr (elems : List JsVal)

/-- JavaScript `typeof`. -/
def typeofStr : JsVal → String
  | .vundefined => "undefined"
  | .vnull => "object"
  | .vnum _ => "number"
  | .vstr _ => "string"
  | .vbool _ => "boolean"
  | .vobj _ => "object"
  | .varr _ => "object"

/-- JavaScript truthiness. -/
def truthy : JsVal → Bool
  | .vundefined => false
  | .vnull => false
  | .vnum .nan => false
  | .vnum (.fin q) => decide (q ≠ 0)
  | .vnum _ => true
  | .vstr s => decide (s ≠ "")
  | .vbool b => b
  | .vobj _ => true
  | .varr _ => true

/-- JavaScript strict equality `===` restricted to the comparisons the
engine performs (`NaN === NaN` is false; object comparisons, which are
reference equality in JavaScript, are modelled as false). -/
def jsStrictEq : JsVal → JsVal → Bool
  | .vundefined, .vundefined => true
  | .vnull, .vnull => true
  | .vnum .nan, .vnum _ => false
  | .vnum _, .vnum .nan => false
  | .vnum a, .vnum b => decide (a = b)
  | .vstr a, .vstr b => decide (a = b)
  | .vbool a, .vbool b => decide (a = b)
  | _, _ => false

/-- JavaScript SameValueZero, used by `Array.prototype.includes`
(`NaN` equals `NaN`; object comparisons modelled as false). -/
def sameValueZero : JsVal → JsVal → Bool
  | .vundefined, .vundefined => true
  | .vnull, .vnull => true
  | .vnum a, .vnum b => decide (a = b)
  | .vstr a, .vstr b => decide (a = b)
  | .vbool a, .vbool b => decide (a = b)
  | _, _ => false

/-- Rendering of a JavaScript number by `String()`.  Integral values
render exactly as in JavaScript; non-integral rationals are rendered
via the `Rat` printer, an approximation of IEEE shortest-round-trip
formatting that no theorem below depends on. -/
def renderNum : JsNum → String
  | .nan => "NaN"
  | .posInf => "Infinity"
  | .negInf => "-Infinity"
  | .fin q => if q.den = 1 then toString q.num else toString q

/-- Rendering of a scalar JavaScript value by `String()`. -/
def renderScalar : JsVal → String
  | .vundefined => "undefined"
  | .vnull => "null"
  | .vbool true => "true"
  | .vbool false => "false"
  | .vnum n => renderNum n
  | .vstr s => s
  | .vobj _ => "[object Object]"
  | .varr _ => ""

/-- Rendering of a JavaScript value by `String()` as used in template
literals of error messages.  Array rendering joins the rendered
elements with `","` one level deep, an approximation of the recursive
`join` that no claim's error message exercises (the engine's messages
only ever render the scalar values under validation). -/
def renderVal : JsVal → String
  | .vundefined => "undefined"
  | .vnull => "null"
  | .vbool true => "true"
  | .vbool false => "false"
  | .vnum n => renderNum n
  | .vstr s => s
  | .vobj _ => "[object Object]"
  | .varr es => String.intercalate "," (es.map renderScalar)

/-! ## Parameter model (`types.ts`, `ParameterUtils`)

Records (JavaScript plain objects used as key→value maps) are modelled
as association lists in insertion order; `key in obj` is modelled by
`lookup` succeeding.  `ParameterDef` keeps the fields the engine reads
(`type`, `default`, `min`, `max`, `options`, `dependsOn`); the purely
descriptive fields (`step`, `itemType`, `description`, `placeholder`,
`group`) are never read by the validated operations and are omitted. -/

abbrev Rec := List (String × JsVal)

structure ParameterDef where
  type : String
  default : Option JsVal
  min : Option JsNum
  max : Option JsNum
  options : Option (List JsVal)
  dependsOn : Option (List (String × JsVal))

/-- A `ParameterDef` with only the `type` field set. -/
def mkParam (t : String) : ParameterDef := ⟨t, none, none, none, none, none⟩

/-- `type ParameterSpec = string | ParameterDef`. -/
inductive ParameterSpec where
  | str (s : String)
  | pdef (d : ParameterDef)

/-- `ParameterUtils.normalize`. -/
def normalize : ParameterSpec → ParameterDef
  | .str s => mkParam s
  | .pdef d => d

/-- `ParameterUtils.getDefault`. -/
def getDefault (spec : ParameterSpec) : JsVal :=
  let param := normalize spec
  match param.default with
  | some v => v
  | none =>
    match param.type with
    | "int" => .vnum (.fin 0)
    | "float" => .vnum (.fin 0)
    | "string" => .vstr ""
    | "boolean" => .vbool false
    | "object" => .vobj []
    | "array" => .varr []
    | "BlockId" => .vstr "minecraft:stone"
    | _ => .vnull

/-- `ParameterUtils.applyDefaults`: copy `inputs`, then insert
`getDefault spec` for every schema key not already present. -/
def applyDefaults (inputs : Rec) (schema : List (String × ParameterSpec)) : Rec :=
  schema.foldl
    (fun result kv =>
      if (result.lookup kv.1).isSome then result
      else result ++ [(kv.1, getDefault kv.2)])
    inputs

/-- `ParameterUtils.shouldShowParameter`: visible iff every `dependsOn`
key is strictly equal to its expected value in `allInputs`. -/
def shouldShowParameter (spec : ParameterSpec) (allInputs : Rec) : Bool :=
  match (normalize spec).dependsOn with
  | none => true
  | some deps => deps.all fun kv => jsStrictEq ((allInputs.lookup kv.1).getD .vundefined) kv.2

/-- `Number.isInteger`. -/
def isIntegerVal : JsVal → Bool
  | .vnum (.fin q) => decide (q.den = 1)
  | _ => false

/-- The numeric value of a `JsVal` already known to be a number. -/
def valAsNum : JsVal → JsNum
  | .vnum n => n
  | _ => .nan

/-- The `param.min !== undefined && value < param.min` check. -/
def checkMin (n : JsNum) (mi : Option JsNum) (paramName : String) (value : JsVal) :
    Except String Unit :=
  match mi with
  | some m =>
    if jsLt n m then
      .error (paramName ++ " must be >= " ++ renderNum m ++ ", got: " ++ renderVal value)
    else .ok ()
  | none => .ok ()

/-- The `param.max !== undefined && value > param.max` check. -/
def checkMax (n : JsNum) (ma : Option JsNum) (paramName : String) (value : JsVal) :
    Except String Unit :=
  match ma with
  | some m =>
    if jsGt n m then
      .error (paramName ++ " must be <= " ++ renderNum m ++ ", got: " ++ renderVal value)
    else .ok ()
  | none => .ok ()

/-- The `param.options && !param.options.includes(value)` check shared by
the `string` and `BlockId` branches. -/
def checkOptions (opts : Option (List JsVal)) (paramName : String) (value : JsVal) :
    Except String Unit :=
  match opts with
  | some os =>
    if !(os.any (sameValueZero · value)) then
      .error (paramName ++ " must be one of: "
        ++ String.intercalate ", " (os.map renderVal) ++ ", got: " ++ renderVal value)
    else .ok ()
  | none => .ok ()

/-- `ParameterUtils.validateParameter`.  The `switch` has no default
branch, so an unrecognised `type` string accepts every value. -/
def validateParameter (value : JsVal) (spec : ParameterSpec) (paramName : String) :
    Except String Unit :=
  let param := normalize spec
  match param.type with
  | "int" =>
    if !(isIntegerVal value) then
      .error (paramName ++ " must be an integer, got: " ++ typeofStr value)
    else
      match checkMin (valAsNum value) param.min paramName value with
      | .error e => .error e
      | .ok _ => checkMax (valAsNum value) param.max paramName value
  | "float" =>
    if !(typeofStr value == "number") then
      .error (paramName ++ " must be a number, got: " ++ typeofStr value)
    else
      match checkMin (valAsNum value) param.min paramName value with
      | .error e => .error e
      | .ok _ => checkMax (valAsNum value) param.max paramName value
  | "string" =>
    if !(typeofStr value == "string") then
      .error (paramName ++ " must be a string, got: " ++ typeofStr value)
    else checkOptions param.options paramName value
  | "boolean" =>
    if !(typeofStr value == "boolean") then
      .error (paramName ++ " must be a boolean, got: " ++ typeofStr value)
    else .ok ()
  | "object" =>
    match value with
    | .vnull => .error (paramName ++ " must be an object, got: " ++ typeofStr JsVal.vnull)
    | v =>
      if !(typeofStr v == "object") then
        .error (paramName ++ " must be an object, got: " ++ typeofStr v)
      else .ok ()
  | "array" =>
    match value with
    | .varr _ => .ok ()
    | v => .error (paramName ++ " must be an array, got: " ++ typeofStr v)
  | "BlockId" =>
    if !(typeofStr value == "string" && jsIncludes (renderVal value) ":") then
      .error (paramName ++ " must be a valid BlockId (namespace:id), got: " ++ renderVal value)
    else checkOptions param.options paramName value
  | _ => .ok ()

/-! ## Input validation (`synthase.ts` `validateInputs` and
`synthase-utils.ts` `executeWithValidation`) -/

/-- The per-key loop of `Synthase.validateInputs`. -/
def validateInputsLoop (iwd : Rec) : List (String × ParameterSpec) → Except String Unit
  | [] => .ok ()
  | (key, spec) :: rest =>
    if !(shouldShowParameter spec iwd) then validateInputsLoop iwd rest
    else
      match iwd.lookup key with
      | some v =>
        match validateParameter v spec key with
        | .error e => .error e
        | .ok _ => validateInputsLoop iwd rest
      | none => .error ("Missing required input: " ++ key)

/-- `Synthase.validateInputs`: apply defaults, then validate every
visible schema key, returning the defaulted input map. -/
def validateInputs (inputs : Rec) (ioInputs : List (String × ParameterSpec)) :
    Except String Rec :=
  let iwd := applyDefaults inputs ioInputs
  match validateInputsLoop iwd ioInputs with
  | .error e => .error e
  | .ok _ => .ok iwd

/-- The per-key loop of `executeWithValidation` (`synthase-utils.ts`
lines 131-169): skip invisible parameters, fail on a missing required
(no-default) parameter, validate present values. -/
def executeWithValidationLoop (iwd : Rec) : List (String × ParameterSpec) → Except String Unit
  | [] => .ok ()
  | (key, spec) :: rest =>
    if !(shouldShowParameter spec iwd) then executeWithValidationLoop iwd rest
    else
      let hasDefault :=
        match spec with
        | .pdef d => d.default.isSome
        | .str _ => false
      let isPresent := (iwd.lookup key).isSome
      if !isPresent && !hasDefault then .error ("Missing required input: " ++ key)
      else if isPresent then
        match validateParameter ((iwd.lookup key).getD .vundefined) spec key with
        | .error e => .error e
        | .ok _ => executeWithValidationLoop iwd rest
      else executeWithValidationLoop iwd rest

/-- `executeWithValidation` up to the invocation of the entry function:
apply defaults, run the strict validation loop, then run
`synthase.call`'s own input validation.  A successful result is the
input map the entry function is invoked with; every error raised inside
the inner `try` (including from `synthase.call`) is wrapped as
`Input validation failed: …`. -/
def executeWithValidationModel (schema : List (String × ParameterSpec)) (inputs : Rec) :
    Except String Rec :=
  let iwd := applyDefaults inputs schema
  match executeWithValidationLoop iwd schema with
  | .error e => .error ("Input validation failed: " ++ e)
  | .ok _ =>
    match validateInputs iwd schema with
    | .error e => .error ("Input validation failed: " ++ e)
    | .ok validated => .ok validated

/-! ## Content hashing (`synthase.ts` `hashContent`)

Source text is modelled as the list of its UTF-16 code units.  The
JavaScript fold `hash = (hash << 5) - hash + char; hash = hash & hash`
keeps a 32-bit pattern equal to `31·hash + char mod 2³²`; the final
`hash ^ length` is a 32-bit xor, and `Math.abs` of the signed 32-bit
value is `p` below `2³¹` and `2³² - p` above. -/

def M32 : ℕ := 4294967296

/-- The 32-bit fold of `hashContent`'s loop. -/
def fold31 (content : List ℕ) : ℕ :=
  content.foldl (fun hash char => (31 * hash + char) % M32) 0

/-- `Math.abs` of the signed 32-bit value whose pattern is `p < 2³²`. -/
def absVal32 (p : ℕ) : ℕ := if p < 2 ^ 31 then p else M32 - p

/-- The digit characters of `Number.prototype.toString(base)`:
`0`-`9` then `a`-`z`. -/
def natDigitChar (d : ℕ) : Char :=
  if d < 10 then Char.ofNat (48 + d) else Char.ofNat (87 + d)

/-- Little-endian digit characters of `n` in base `b`, with enough fuel
to exhaust the number (structural recursion so that concrete hashes
evaluate inside the kernel). -/
def toBaseCharsAux (b : ℕ) : ℕ → ℕ → List Char
  | 0, _ => []
  | fuel + 1, n => if n = 0 then [] else natDigitChar (n % b) :: toBaseCharsAux b fuel (n / b)

/-- Big-endian base-`b` rendering of a natural number, as produced by
`toString(b)` in JavaScript (`"0"` for zero). -/
def toBaseChars (b n : ℕ) : List Char :=
  if n = 0 then ['0'] else (toBaseCharsAux b n n).reverse

theorem toBaseCharsAux_eq (b : ℕ) (hb : 2 ≤ b) :
    ∀ fuel n, n ≤ fuel → toBaseCharsAux b fuel n = (Nat.digits b n).map natDigitChar := by
  intro fuel
  induction fuel with
  | zero =>
    intro n hn
    have : n = 0 := Nat.le_zero.mp hn
    subst this
    simp [toBaseCharsAux]
  | succ fuel ih =>
    intro n hn
    by_cases h0 : n = 0
    · subst h0; simp [toBaseCharsAux]
    · rw [toBaseCharsAux, if_neg h0, Nat.digits_def' (by omega : 1 < b) (Nat.pos_of_ne_zero h0)]
      have hdiv : n / b ≤ fuel := by
        have := Nat.div_lt_self (Nat.pos_of_ne_zero h0) (by omega : 1 < b)
        omega
      rw [ih (n / b) hdiv]
      rfl

theorem toBaseChars_eq (b n : ℕ) (hb : 2 ≤ b) :
    toBaseChars b n = if n = 0 then ['0'] else ((Nat.digits b n).map natDigitChar).reverse := by
  unfold toBaseChars
  by_cases h0 : n = 0
  · simp [h0]
  · rw [if_neg h0, if_neg h0, toBaseCharsAux_eq b hb n n le_rfl]

/-- `Math.abs(hash).toString(36)`-style rendering. -/
def toBase36 (n : ℕ) : List Char := toBaseChars 36 n

/-- Decimal rendering used for the interpolated `content.length`. -/
def toDec (n : ℕ) : List Char := toBaseChars 10 n

/-- `Synthase.hashContent`: `"<fold-abs base36>_<checksum base36>_<length>"`,
where the checksum is the sum of the first and last character codes, and
the empty text hashes to `"0"`.  (The `content.length > 0` ternary inside
the non-empty branch is kept from the source; it is always true there.) -/
def hashContent (content : List ℕ) : String :=
  if content.length = 0 then String.mk (toBase36 0)
  else
    let hash := fold31 content ^^^ (content.length % M32)
    let hashStr := toBase36 (absVal32 hash)
    let checksum :=
      if content.length > 0 then toBase36 (content.headD 0 + content.getLastD 0) else ['0']
    String.mk (hashStr ++ '_' :: (checksum ++ '_' :: toDec content.length))

/-! ## Script cache (`synthase.ts`)

The `Map`-backed cache is modelled as an association list with unique
keys; `Map.delete` is modelled by filtering the key out. -/

structure CacheEntry (α : Type) where
  script : α
  timestamp : ℕ
  contentHash : String
  source : String

/-- `Synthase.invalidateScript`. -/
def invalidateScript {α : Type} (cache : List (String × CacheEntry α)) (scriptId : String) :
    List (String × CacheEntry α) :=
  cache.filter fun p => p.1 != scriptId

/-- `Synthase.invalidateByContent`: recompute the hash of the new
content and evict the entry iff the stored hash differs. -/
def invalidateByContent {α : Type} (cache : List (String × CacheEntry α)) (scriptId : String)
    (newContent : List ℕ) : List (String × CacheEntry α) :=
  match cache.lookup scriptId with
  | none => cache
  | some entry =>
    if entry.contentHash ≠ hashContent newContent then invalidateScript cache scriptId
    else cache

/-! Injectivity of the hash-string components. -/

theorem natDigitChar_inj :
    ∀ d1 < 36, ∀ d2 < 36, natDigitChar d1 = natDigitChar d2 → d1 = d2 := by decide

theorem natDigitChar_ne_underscore : ∀ d < 36, natDigitChar d ≠ '_' := by decide

theorem map_natDigitChar_inj :
    ∀ l1 l2 : List ℕ, (∀ x ∈ l1, x < 36) → (∀ x ∈ l2, x < 36) →
      l1.map natDigitChar = l2.map natDigitChar → l1 = l2 := by
  intro l1
  induction l1 with
  | nil => intro l2 _ _ h; cases l2 <;> simp_all
  | cons a t ih =>
    intro l2 h1 h2 h
    cases l2 with
    | nil => simp_all
    | cons b t2 =>
      simp only [List.map_cons, List.cons.injEq] at h
      have ha := h1 a (by simp)
      have hb := h2 b (by simp)
      have := natDigitChar_inj a ha b hb h.1
      subst this
      have := ih t2 (fun x hx => h1 x (by simp [hx])) (fun x hx => h2 x (by simp [hx])) h.2
      simp [this]

theorem toBaseChars_inj (b : ℕ) (hb : 2 ≤ b) (hb36 : b ≤ 36) :
    ∀ m n : ℕ, toBaseChars b m = toBaseChars b n → m = n := by
  have digbound : ∀ n : ℕ, ∀ d ∈ Nat.digits b n, d < 36 := by
    intro n d hd
    exact lt_of_lt_of_le (Nat.digits_lt_base hb hd) hb36
  have nonzero : ∀ n : ℕ, n ≠ 0 → ((Nat.digits b n).map natDigitChar).reverse = ['0'] → False := by
    intro n hn h
    have h' : (Nat.digits b n).map natDigitChar = ['0'] := by
      have := congrArg List.reverse h
      simpa using this
    cases hdig : Nat.digits b n with
    | nil =>
      rw [hdig] at h'; simp at h'
    | cons d rest =>
      rw [hdig] at h'
      simp only [List.map_cons, List.cons.injEq] at h'
      have hrest : rest = [] := by
        have := h'.2
        cases rest <;> simp_all
      have hd36 : d < 36 := digbound n d (by rw [hdig]; simp)
      have hd0 : d = 0 := natDigitChar_inj d hd36 0 (by norm_num) (by simpa using h'.1)
      subst hd0; subst hrest
      have := Nat.ofDigits_digits b n
      rw [hdig] at this
      simp [Nat.ofDigits] at this
      exact hn this.symm
  intro m n h
  rw [toBaseChars_eq b m hb, toBaseChars_eq b n hb] at h
  by_cases hm : m = 0 <;> by_cases hn : n = 0
  · omega
  · rw [if_pos hm, if_neg hn] at h; exact absurd h.symm (fun hh => nonzero n hn hh)
  · rw [if_neg hm, if_pos hn] at h; exact absurd h (fun hh => nonzero m hm hh)
  · rw [if_neg hm, if_neg hn] at h
    have h' := congrArg List.reverse h
    simp only [List.reverse_reverse] at h'
    have := map_natDigitChar_inj _ _ (digbound m) (digbound n) h'
    have h2 := congrArg (Nat.ofDigits b) this
    rwa [Nat.ofDigits_digits, Nat.ofDigits_digits] at h2

theorem underscore_not_mem_toBaseChars (b : ℕ) (hb : 2 ≤ b) (hb36 : b ≤ 36) (n : ℕ) :
    '_' ∉ toBaseChars b n := by
  rw [toBaseChars_eq b n hb]
  by_cases hn : n = 0
  · rw [if_pos hn]; decide
  · rw [if_neg hn]
    intro hmem
    rw [List.mem_reverse] at hmem
    obtain ⟨d, hd, hdc⟩ := List.mem_map.mp hmem
    have : d < 36 := lt_of_lt_of_le (Nat.digits_lt_base hb hd) hb36
    exact natDigitChar_ne_underscore d this hdc

theorem append_underscore_inj :
    ∀ x1 x2 r1 r2 : List Char, '_' ∉ x1 → '_' ∉ x2 →
      x1 ++ '_' :: r1 = x2 ++ '_' :: r2 → x1 = x2 ∧ r1 = r2 := by
  intro x1
  induction x1 with
  | nil =>
    intro x2 r1 r2 _ h2 h
    cases x2 with
    | nil => simp_all
    | cons c t =>
      simp only [List.nil_append, List.cons_append, List.cons.injEq] at h
      exact absurd (h.1 ▸ List.mem_cons_self c t) (by simp_all)
  | cons a t ih =>
    intro x2 r1 r2 h1 h2 h
    cases x2 with
    | nil =>
      simp only [List.cons_append, List.nil_append, List.cons.injEq] at h
      exact absurd (h.1 ▸ List.mem_cons_self a t) (by simp_all)
    | cons b t2 =>
      simp only [List.cons_append, List.cons.injEq] at h
      obtain ⟨hab, ht⟩ := h
      subst hab
      have := ih t2 r1 r2 (fun hm => h1 (List.mem_cons_of_mem a hm))
        (fun hm => h2 (List.mem_cons_of_mem a hm)) ht
      simp [this.1, this.2]

theorem underscore_not_mem_toBase36 (n : ℕ) : '_' ∉ toBase36 n :=
  underscore_not_mem_toBaseChars 36 (by norm_num) (by norm_num) n

/-- Two texts with the same hash string agree on length and on the sum
of first and last character codes: the hash string embeds both as
separate `_`-delimited components, each rendered injectively. -/
theorem hashContent_eq_components {a b : List ℕ} (h : hashContent a = hashContent b) :
    a.length = b.length ∧ a.headD 0 + a.getLastD 0 = b.headD 0 + b.getLastD 0 := by
  by_cases ha : a.length = 0 <;> by_cases hb : b.length = 0
  · have ha' := List.length_eq_zero.mp ha
    have hb' := List.length_eq_zero.mp hb
    subst ha'; subst hb'; exact ⟨rfl, rfl⟩
  · exfalso
    unfold hashContent at h
    rw [if_pos ha, if_neg hb] at h
    injection h with h
    have : '_' ∈ toBase36 0 := by
      rw [h]; simp
    exact underscore_not_mem_toBase36 0 this
  · exfalso
    unfold hashContent at h
    rw [if_neg ha, if_pos hb] at h
    injection h with h
    have : '_' ∈ toBase36 0 := by
      rw [← h]; simp
    exact underscore_not_mem_toBase36 0 this
  · unfold hashContent at h
    rw [if_neg ha, if_neg hb] at h
    injection h with h
    rw [if_pos (Nat.pos_of_ne_zero ha), if_pos (Nat.pos_of_ne_zero hb)] at h
    obtain ⟨-, h2⟩ := append_underscore_inj _ _ _ _
      (underscore_not_mem_toBase36 _) (underscore_not_mem_toBase36 _) h
    obtain ⟨hsum, hlen⟩ := append_underscore_inj _ _ _ _
      (underscore_not_mem_toBase36 _) (underscore_not_mem_toBase36 _) h2
    refine ⟨toBaseChars_inj 10 (by norm_num) (by norm_num) _ _ hlen, ?_⟩
    exact toBaseChars_inj 36 (by norm_num) (by norm_num) _ _ hsum

theorem lookup_invalidateScript {α : Type} (cache : List (String × CacheEntry α))
    (scriptId : String) : (invalidateScript cache scriptId).lookup scriptId = none := by
  induction cache with
  | nil => rfl
  | cons p rest ih =>
    unfold invalidateScript at ih ⊢
    by_cases hp : p.1 = scriptId
    · simp [List.filter, hp, ih]
    · simp only [List.filter]
      rw [show (p.1 != scriptId) = true by simp [hp]]
      simp only [List.lookup]
      rw [show (scriptId == p.1) = false by simp [Ne.symm hp]]
      exact ih

/-! ## Timed execution (`execution-limits.ts` `executeWithTimeout`)

The asynchronous producer `fn` is modelled by the time (in ms) at which
its promise settles together with its outcome.  `Promise.race` against
the `setTimeout` timer is won by whichever settles first; a tie is won
by the producer (an already-settled promise's microtask runs before the
timer's macrotask, which is also why an immediately-resolved producer
beats a 0 ms timer). -/

/-- The message of the internal race rejection. -/
def raceTimeoutMsg (t : ℕ) : String :=
  "Script execution timeout after " ++ toString t ++ "ms"

/-- Three-digit zero-padded decimal, for the fractional part of `t/1000`. -/
def pad3 (n : ℕ) : List Char :=
  List.replicate (3 - (toDec n).length) '0' ++ toDec n

/-- Drop trailing `'0'` characters. -/
def stripTrailingZeros (l : List Char) : List Char :=
  (l.reverse.dropWhile (· = '0')).reverse

/-- Rendering of the JavaScript number `t / 1000` for a natural `t` in
milliseconds, as interpolated by a template literal (exact decimal with
trailing zeros stripped, which is IEEE shortest-round-trip formatting
for these values). -/
def renderThousandths (t : ℕ) : String :=
  if t % 1000 = 0 then String.mk (toDec (t / 1000))
  else String.mk (toDec (t / 1000) ++ '.' :: stripTrailingZeros (pad3 (t % 1000)))

/-- The message of the error actually rethrown by the `catch` block. -/
def timeLimitMsg (t : ℕ) : String :=
  "Script execution exceeded time limit (" ++ renderThousandths t ++ "s)"

/-- The race between `fn()` (settling at `resolveTime` with `outcome`)
and the timeout timer. -/
def promiseRace {α : Type} (t resolveTime : ℕ) (outcome : Except String α) : Except String α :=
  if resolveTime ≤ t then outcome else .error (raceTimeoutMsg t)

/-- `ExecutionLimits.executeWithTimeout`: race, then the `catch` block,
which rewraps any error whose message contains `"timeout"`. -/
def executeWithTimeout {α : Type} (t resolveTime : ℕ) (outcome : Except String α) :
    Except String α :=
  match promiseRace t resolveTime outcome with
  | .ok v => .ok v
  | .error e => if jsIncludes e "timeout" then .error (timeLimitMsg t) else .error e

/-! ## Composite registry (`script-registry.ts` `CompositeScriptRegistry`)

A child registry's behaviour on the requested identifier is its
`resolve` outcome, so the composite is modelled over the list of child
outcomes. -/

/-- JavaScript `errors.join("; ")`. -/
def joinSemicolon : List String → String
  | [] => ""
  | [e] => e
  | e :: rest => e ++ "; " ++ joinSemicolon rest

/-- The `for` loop of `CompositeScriptRegistry.resolve`, carrying the
0-based index `i` and the accumulated error strings. -/
def compositeGo (scriptId : String) :
    List (Except String String) → ℕ → List String → Except String String
  | [], _, errs =>
    .error ("Script not found in any registry: " ++ scriptId ++ ". Errors: " ++ joinSemicolon errs)
  | (Except.ok v) :: _, _, _ => .ok v
  | (Except.error e) :: rest, i, errs =>
    compositeGo scriptId rest (i + 1) (errs ++ ["Registry " ++ toString (i + 1) ++ ": " ++ e])

/-- `CompositeScriptRegistry.resolve`. -/
def compositeResolve (children : List (Except String String)) (scriptId : String) :
    Except String String :=
  compositeGo scriptId children 0 []

/-! ## `importScript` string resolution (`synthase.ts` variant with a
registry, lines 346-386)

`resolved` is the value produced by `registry.resolve(arg)`; `vundefined`
models all three ways the source leaves `resolved` undefined: no
registry configured, the registry threw, or it returned `undefined`. -/

/-- JavaScript property access `v.k` (undefined on non-objects). -/
def getProp (v : JsVal) (k : String) : JsVal :=
  match v with
  | .vobj fields => (fields.lookup k).getD .vundefined
  | _ => .vundefined

/-- The unsupported-value error message. -/
def unsupportedMsg (registryId : String) : String :=
  "Registry returned unsupported value for " ++ String.mk [quoteD] ++ registryId
    ++ String.mk [quoteD] ++ " (expected string)"

/-- The string-argument resolution chain of `importScript`: a string
result is the source; a truthy value with a string `content` or
`script` member yields that member; any other defined value is an
error; an undefined `resolved` falls through to the raw argument. -/
def resolveImportSource (resolved : JsVal) (registryId : String) : Except String String :=
  match resolved with
  | .vstr s => .ok s
  | _ =>
    if truthy resolved then
      match getProp resolved "content" with
      | .vstr c => .ok c
      | _ =>
        match getProp resolved "script" with
        | .vstr c => .ok c
        | _ => .error (unsupportedMsg registryId)
    else
      match resolved with
      | .vundefined => .ok registryId
      | _ => .error (unsupportedMsg registryId)

/-! ## Import tracking (`synthase.ts` `createExecutionContext` /
`importScript`)

Each call to `createExecutionContext` allocates a fresh
`importTracker`; the callable returned by `importScript` rebuilds a
fresh context (hence a fresh tracker) for every invocation of the
the imported entry.  A script's interaction with it is modelled
as `SProg`: `imp content body rest` imports `content`, immediately
invokes the returned callable (whose entry behaves as `body`), then
continues as `rest`.  The semantics returns the frame result, a global
count of successful imports across all frames of the top-level call,
and the trace of every tracker state at the suspension points of every
frame.  The resource-monitor sample is modelled as non-failing (its
failure aborts like any other error and never touches the tracker);
validation is abstracted by the verdict function `validate`, `none`
meaning the validator accepted the text. -/

structure ExecutionLimits where
  timeout : ℕ
  maxRecursionDepth : ℕ
  maxImportedScripts : ℕ
  maxMemory : ℕ

/-- The default limits from `execution-limits.ts`. -/
def defaultLimits : ExecutionLimits := ⟨30000, 10, 50, 104857600⟩

structure ImportTracker where
  importCount : ℕ
  importStack : List String
  importedScripts : List String
deriving DecidableEq, Repr

/-- The freshly-allocated tracker of `createExecutionContext`. -/
def newTracker : ImportTracker := ⟨0, [], []⟩

inductive SProg where
  | nil
  | imp (content : List ℕ) (body rest : SProg)

def importLimitMsg (m : ℕ) : String :=
  "Import limit exceeded: maximum " ++ toString m ++ " scripts per execution"

def recursionLimitMsg (m : ℕ) : String :=
  "Recursion depth limit exceeded: maximum " ++ toString m ++ " levels"

def recursiveImportMsg : String :=
  "Recursive import detected: script content already imported in this execution"

/-- One frame of execution.  The guards, the content-hash recursion
check, validation, the bookkeeping (increment, push, record hash), the
`finally` pop (which runs before the callable is ever invoked), and the
fresh-tracker nested run follow `importScript` line by line. -/
def runFrame (L : ExecutionLimits) (validate : List ℕ → Option String) :
    SProg → ImportTracker → ℕ → Except String ImportTracker × ℕ × List ImportTracker
  | .nil, t, g => (.ok t, g, [t])
  | .imp content body rest, t, g =>
    if t.importCount ≥ L.maxImportedScripts then
      (.error (importLimitMsg L.maxImportedScripts), g, [t])
    else if t.importStack.length ≥ L.maxRecursionDepth then
      (.error (recursionLimitMsg L.maxRecursionDepth), g, [t])
    else
      let h := hashContent content
      if h ∈ t.importedScripts then (.error recursiveImportMsg, g, [t])
      else
        match validate content with
        | some errs => (.error ("Imported script validation failed: " ++ errs), g, [t])
        | none =>
          let scriptId := "imported-" ++ String.mk (toDec g)
          let t1 : ImportTracker :=
            ⟨t.importCount + 1, scriptId :: t.importStack, h :: t.importedScripts⟩
          let t2 : ImportTracker := ⟨t1.importCount, t1.importStack.tail, t1.importedScripts⟩
          match runFrame L validate body newTracker (g + 1) with
          | (.error e, g2, tr) => (.error e, g2, t :: t1 :: t2 :: tr)
          | (.ok _, g2, tr) =>
            match runFrame L validate rest t2 g2 with
            | (r, g3, tr2) => (r, g3, t :: t1 :: t2 :: (tr ++ tr2))

/-- A top-level call: a fresh context, hence a fresh tracker. -/
def runTop (L : ExecutionLimits) (validate : List ℕ → Option String) (p : SProg) :
    Except String ImportTracker × ℕ × List ImportTracker :=
  runFrame L validate p newTracker 0

/-! ## Script validator text passes (`script-validator.ts`)

`stripComments` and `maskStrings` are character-level state machines;
they are embedded over `List Char`.  `validateScript` applies
`maskStrings` to the output of `stripComments`, and the composed
pipeline is what claim C9 is about.  The classification of a source
position as comment, string delimiter, string body or plain code is
the one computed by the validator's own state machines (`fusedGo`
below): comment extent is decided by the `stripComments` machine and
string extent by the `maskStrings` machine running on the characters
`stripComments` emits. -/

/-- One of the three JavaScript quote characters. -/
def isQuote (c : Char) : Bool := c == quoteD || c == quoteS || c == quoteB

structure MaskSt where
  inString : Bool
  stringChar : Option Char
  escapeNext : Bool
deriving DecidableEq, Repr

def maskInit : MaskSt := ⟨false, none, false⟩

/-- The state update of one `maskStrings` loop iteration. -/
def maskNext (st : MaskSt) (c : Char) : MaskSt :=
  if st.escapeNext then { st with escapeNext := false }
  else if c == '\\' then { st with escapeNext := true }
  else if isQuote c && !st.inString then ⟨true, some c, false⟩
  else if st.inString && st.stringChar == some c then ⟨false, none, false⟩
  else st

/-- The `maskStrings` loop: escaped characters and string bodies become
spaces inside strings; delimiters and code pass through. -/
def maskGo (st : MaskSt) : List Char → List Char
  | [] => []
  | c :: cs =>
    (if st.escapeNext then (if st.inString then ' ' else c)
     else if c == '\\' then (if st.inString then ' ' else c)
     else if isQuote c && !st.inString then c
     else if st.inString && st.stringChar == some c then c
     else if st.inString then ' '
     else c) :: maskGo (maskNext st c) cs

/-- `ScriptValidator.maskStrings`. -/
def maskStrings (content : List Char) : List Char := maskGo maskInit content

structure StripSt where
  inString : Bool
  stringChar : Option Char
  inSingleLineComment : Bool
  inMultiLineComment : Bool
  escapeNext : Bool
deriving DecidableEq, Repr

def stripInit : StripSt := ⟨false, none, false, false, false⟩

/-- The escape/quote state chain at the top of each `stripComments`
iteration (quote tracking is disabled inside comments). -/
def stripChain (st : StripSt) (c : Char) : StripSt :=
  if st.escapeNext then { st with escapeNext := false }
  else if c == '\\' then { st with escapeNext := true }
  else if !st.inSingleLineComment && !st.inMultiLineComment then
    if isQuote c then
      if !st.inString then { st with inString := true, stringChar := some c }
      else if st.stringChar == some c then { st with inString := false, stringChar := none }
      else st
    else st
  else st

/-- The end-of-line reset of the single-line-comment flag, applied just
before the emission decision. -/
def stripAfter (st1 : StripSt) (c : Char) : StripSt :=
  if st1.inSingleLineComment && c == '\n' then { st1 with inSingleLineComment := false }
  else st1

/-- Whether the current character is emitted: outside comments always,
inside comments only a newline. -/
def stripKeeps (st2 : StripSt) (c : Char) : Bool :=
  (!st2.inSingleLineComment && !st2.inMultiLineComment) || c == '\n'

/-- Guard for entering a single-line comment on `//`. -/
def slEntry (st1 : StripSt) (c c2 : Char) : Bool :=
  !st1.inString && !st1.escapeNext && c == '/' && c2 == '/' && !st1.inMultiLineComment

/-- Guard for entering a multi-line comment on `/*`. -/
def mlEntry (st1 : StripSt) (c c2 : Char) : Bool :=
  !st1.inString && !st1.escapeNext && c == '/' && c2 == '*' && !st1.inSingleLineComment

/-- Guard for leaving a multi-line comment on `*/`. -/
def mlExit (st1 : StripSt) (c c2 : Char) : Bool :=
  st1.inMultiLineComment && c == '*' && c2 == '/'

/-- The `stripComments` loop.  The comment-delimiter branches consume
the lookahead character as well (the `i++; continue` of the source); a
lone trailing character has no lookahead and is never a delimiter pair. -/
def stripGo (st : StripSt) : List Char → List Char
  | [] => []
  | [c] => if stripKeeps (stripAfter (stripChain st c) c) c then [c] else []
  | c :: c2 :: cs =>
    if slEntry (stripChain st c) c c2 then
      stripGo { stripChain st c with inSingleLineComment := true } cs
    else if mlEntry (stripChain st c) c c2 then
      stripGo { stripChain st c with inMultiLineComment := true } cs
    else if mlExit (stripChain st c) c c2 then
      stripGo { stripChain st c with inMultiLineComment := false } cs
    else
      (if stripKeeps (stripAfter (stripChain st c) c) c then [c] else []) ++
        stripGo (stripAfter (stripChain st c) c) (c2 :: cs)

/-- `ScriptValidator.stripComments`. -/
def stripComments (content : List Char) : List Char := stripGo stripInit content

/-- Classification of one source character by the validator's own
machines. -/
inductive CTag where
  | code
  | strBody
  | strQuote
  | comment
deriving DecidableEq, Repr

/-- The tag `maskStrings` assigns to an emitted character. -/
def maskTag (st : MaskSt) (c : Char) : CTag :=
  if st.escapeNext then (if st.inString then .strBody else .code)
  else if c == '\\' then (if st.inString then .strBody else .code)
  else if isQuote c && !st.inString then .strQuote
  else if st.inString && st.stringChar == some c then .strQuote
  else if st.inString then .strBody
  else .code

/-- What the pipeline emits for one tagged character: code and string
delimiters pass through unchanged, string bodies become a space,
comment characters are dropped (comment newlines are emitted and are
tagged by the mask machine, not as comments). -/
def renderPair (p : Char × CTag) : List Char :=
  match p.2 with
  | .code => [p.1]
  | .strQuote => [p.1]
  | .strBody => [' ']
  | .comment => []

def render : List (Char × CTag) → List Char
  | [] => []
  | p :: rest => renderPair p ++ render rest

/-- The fused classifier: the `stripComments` machine decides which
characters are comment-dropped, and the `maskStrings` machine, fed
exactly the characters `stripComments` emits, tags the rest. -/
def fusedGo (ss : StripSt) (ms : MaskSt) : List Char → List (Char × CTag)
  | [] => []
  | [c] =>
    if stripKeeps (stripAfter (stripChain ss c) c) c then [(c, maskTag ms c)]
    else [(c, .comment)]
  | c :: c2 :: cs =>
    if slEntry (stripChain ss c) c c2 then
      (c, .comment) :: (c2, .comment) ::
        fusedGo { stripChain ss c with inSingleLineComment := true } ms cs
    else if mlEntry (stripChain ss c) c c2 then
      (c, .comment) :: (c2, .comment) ::
        fusedGo { stripChain ss c with inMultiLineComment := true } ms cs
    else if mlExit (stripChain ss c) c c2 then
      (c, .comment) :: (c2, .comment) ::
        fusedGo { stripChain ss c with inMultiLineComment := false } ms cs
    else
      if stripKeeps (stripAfter (stripChain ss c) c) c then
        (c, maskTag ms c) :: fusedGo (stripAfter (stripChain ss c) c) (maskNext ms c) (c2 :: cs)
      else
        (c, .comment) :: fusedGo (stripAfter (stripChain ss c) c) ms (c2 :: cs)

/-- Classification of a whole source text. -/
def classify (content : List Char) : List (Char × CTag) :=
  fusedGo stripInit maskInit content

theorem maskGo_cons (st : MaskSt) (c : Char) (cs : List Char) :
    maskGo st (c :: cs) = renderPair (c, maskTag st c) ++ maskGo (maskNext st c) cs := by
  simp only [maskGo, maskTag]
  split_ifs <;> rfl

theorem maskGo_stripGo_bounded (n : ℕ) :
    ∀ cs : List Char, cs.length ≤ n → ∀ ss ms,
      maskGo ms (stripGo ss cs) = render (fusedGo ss ms cs) := by
  induction n with
  | zero =>
    intro cs h ss ms
    have : cs = [] := List.length_eq_zero.mp (Nat.le_zero.mp h)
    subst this
    rfl
  | succ n ih =>
    intro cs h ss ms
    match cs with
    | [] => rfl
    | [c] =>
      simp only [stripGo, fusedGo]
      by_cases hk : stripKeeps (stripAfter (stripChain ss c) c) c = true
      · rw [if_pos hk, if_pos hk, show maskGo ms [c] = maskGo ms (c :: []) from rfl,
          maskGo_cons]
        simp [render, maskGo]
      · rw [if_neg hk, if_neg hk]
        simp [render, renderPair, maskGo]
    | c :: c2 :: cs =>
      have hlen2 : cs.length ≤ n := by
        simp only [List.length_cons] at h; omega
      have hlen1 : (c2 :: cs).length ≤ n := by
        simp only [List.length_cons] at h ⊢; omega
      simp only [stripGo, fusedGo]
      by_cases hs : slEntry (stripChain ss c) c c2 = true
      · rw [if_pos hs, if_pos hs, ih cs hlen2]
        simp [render, renderPair]
      · rw [if_neg hs, if_neg hs]
        by_cases hm : mlEntry (stripChain ss c) c c2 = true
        · rw [if_pos hm, if_pos hm, ih cs hlen2]
          simp [render, renderPair]
        · rw [if_neg hm, if_neg hm]
          by_cases hx : mlExit (stripChain ss c) c c2 = true
          · rw [if_pos hx, if_pos hx, ih cs hlen2]
            simp [render, renderPair]
          · rw [if_neg hx, if_neg hx]
            by_cases hk : stripKeeps (stripAfter (stripChain ss c) c) c = true
            · rw [if_pos hk, if_pos hk, List.singleton_append, maskGo_cons,
                ih (c2 :: cs) hlen1]
              simp [render]
            · rw [if_neg hk, if_neg hk, List.nil_append, ih (c2 :: cs) hlen1]
              simp [render, renderPair]

/-- Fusion of the two validator passes: the composed pipeline equals
the rendering of the fused classification. -/
theorem maskStrings_stripComments (content : List Char) :
    maskStrings (stripComments content) = render (classify content) :=
  maskGo_stripGo_bounded content.length content le_rfl stripInit maskInit

theorem fusedGo_map_fst_bounded (n : ℕ) :
    ∀ cs : List Char, cs.length ≤ n → ∀ ss ms,
      (fusedGo ss ms cs).map Prod.fst = cs := by
  induction n with
  | zero =>
    intro cs h ss ms
    have : cs = [] := List.length_eq_zero.mp (Nat.le_zero.mp h)
    subst this
    rfl
  | succ n ih =>
    intro cs h ss ms
    match cs with
    | [] => rfl
    | [c] =>
      simp only [fusedGo]
      by_cases hk : stripKeeps (stripAfter (stripChain ss c) c) c = true
      · rw [if_pos hk]; rfl
      · rw [if_neg hk]; rfl
    | c :: c2 :: cs =>
      have hlen2 : cs.length ≤ n := by
        simp only [List.length_cons] at h; omega
      have hlen1 : (c2 :: cs).length ≤ n := by
        simp only [List.length_cons] at h ⊢; omega
      simp only [fusedGo]
      by_cases hs : slEntry (stripChain ss c) c c2 = true
      · rw [if_pos hs]; simp [ih cs hlen2]
      · rw [if_neg hs]
        by_cases hm : mlEntry (stripChain ss c) c c2 = true
        · rw [if_pos hm]; simp [ih cs hlen2]
        · rw [if_neg hm]
          by_cases hx : mlExit (stripChain ss c) c c2 = true
          · rw [if_pos hx]; simp [ih cs hlen2]
          · rw [if_neg hx]
            by_cases hk : stripKeeps (stripAfter (stripChain ss c) c) c = true
            · rw [if_pos hk]; simp [ih (c2 :: cs) hlen1]
            · rw [if_neg hk]; simp [ih (c2 :: cs) hlen1]

/-- The classifier tags exactly the source characters, in order. -/
theorem classify_map_fst (content : List Char) :
    (classify content).map Prod.fst = content :=
  fusedGo_map_fst_bounded content.length content le_rfl stripInit maskInit

/-- Rendering is the order-preserving per-character map: code and
delimiter characters pass through, string bodies become spaces,
comment characters vanish. -/
theorem render_eq_filterMap (l : List (Char × CTag)) :
    render l = l.filterMap fun p =>
      match p.2 with
      | CTag.code => some p.1
      | CTag.strQuote => some p.1
      | CTag.strBody => some ' '
      | CTag.comment => none := by
  induction l with
  | nil => rfl
  | cons p rest ih =>
    rw [render, List.filterMap_cons, ih]
    rcases p with ⟨c, tag⟩
    cases tag <;> rfl

/-! ## Claim theorems -/

/-- C10: if the engine's `hashContent` yields the same hash string for
two texts, the texts have the same length and the same sum of first and
last character codes, because the hash string embeds the length and a
first-plus-last checksum as separate components. -/
theorem hashContent_collision_structure (a b : List ℕ)
    (h : hashContent a = hashContent b) :
    a.length = b.length ∧ a.headD 0 + a.getLastD 0 = b.headD 0 + b.getLastD 0 :=
  hashContent_eq_components h

/-- Witness for C10 at the concrete colliding pair. -/
theorem hashContent_collision_structure_witness :
    hashContent [118, 88, 51, 56, 76, 84, 69, 66, 70, 108, 57, 80] =
        hashContent [118, 88, 51, 56, 76, 84, 69, 66, 70, 90, 57, 80]
      ∧ ([118, 88, 51, 56, 76, 84, 69, 66, 70, 108, 57, 80] : List ℕ).length =
          ([118, 88, 51, 56, 76, 84, 69, 66, 70, 90, 57, 80] : List ℕ).length :=
  ⟨by decide,
    (hashContent_collision_structure
      [118, 88, 51, 56, 76, 84, 69, 66, 70, 108, 57, 80]
      [118, 88, 51, 56, 76, 84, 69, 66, 70, 90, 57, 80] (by decide)).1⟩

/-- The first source text of the colliding pair (`"vX38LTEBFl9P"`). -/
def collisionA : List ℕ := [118, 88, 51, 56, 76, 84, 69, 66, 70, 108, 57, 80]

/-- The second text: the same bytes except position 9 (`'l'` → `'Z'`). -/
def collisionB : List ℕ := [118, 88, 51, 56, 76, 84, 69, 66, 70, 90, 57, 80]

/-- A cache holding an entry produced from `collisionA`. -/
def collisionCache : List (String × CacheEntry Unit) :=
  [("script", ⟨(), 0, hashContent collisionA, "main"⟩)]

/-- C8 counterexample: the two texts differ in exactly one byte, yet the
32-bit fold hash collides (`Math.abs` of opposite signed values), so
`invalidateByContent` finds the recomputed hash equal and does not
evict. -/
theorem invalidateByContent_one_byte_no_evict :
    collisionA ≠ collisionB
    ∧ collisionA.length = collisionB.length
    ∧ ((collisionA.zip collisionB).countP fun p => p.1 ≠ p.2) = 1
    ∧ hashContent collisionA = hashContent collisionB
    ∧ (collisionCache.lookup "script").isSome = true
    ∧ invalidateByContent collisionCache "script" collisionB = collisionCache :=
  ⟨by decide, by decide, by decide, by decide, rfl, rfl⟩

/-- C8 amended: `invalidateByContent` evicts exactly when the recomputed
hash string differs from the stored one; changing the first or the last
byte always changes the checksum component and therefore always evicts,
but an interior one-byte change can collide (see the counterexample). -/
theorem invalidateByContent_spec {α : Type} (cache : List (String × CacheEntry α))
    (scriptId : String) (e : CacheEntry α) (txt : List ℕ)
    (hl : cache.lookup scriptId = some e) :
    ((invalidateByContent cache scriptId txt).lookup scriptId =
        if hashContent txt = e.contentHash then some e else none)
    ∧ (∀ c c2 : ℕ, ∀ rest : List ℕ, c ≠ c2 → e.contentHash = hashContent (c :: rest) →
        (invalidateByContent cache scriptId (c2 :: rest)).lookup scriptId = none)
    ∧ (∀ c c2 : ℕ, ∀ rest : List ℕ, c ≠ c2 → e.contentHash = hashContent (rest ++ [c]) →
        (invalidateByContent cache scriptId (rest ++ [c2])).lookup scriptId = none) := by
  have base : ∀ txt2 : List ℕ,
      (invalidateByContent cache scriptId txt2).lookup scriptId =
        if hashContent txt2 = e.contentHash then some e else none := by
    intro txt2
    unfold invalidateByContent
    rw [hl]
    show List.lookup scriptId
        (if e.contentHash ≠ hashContent txt2 then invalidateScript cache scriptId else cache) = _
    by_cases hh : hashContent txt2 = e.contentHash
    · rw [if_neg (fun hcond => hcond hh.symm), hl, if_pos hh]
    · rw [if_pos (fun heq => hh heq.symm), lookup_invalidateScript, if_neg hh]
  refine ⟨base txt, ?_, ?_⟩
  · intro c c2 rest hne hhash
    rw [base (c2 :: rest), if_neg]
    intro heq
    rw [hhash] at heq
    have hcomp := hashContent_eq_components heq
    rcases hcomp with ⟨-, hsum⟩
    cases rest with
    | nil => simp at hsum; omega
    | cons r rs =>
      simp only [List.headD_cons, List.getLastD_cons] at hsum
      omega
  · intro c c2 rest hne hhash
    rw [base (rest ++ [c2]), if_neg]
    intro heq
    rw [hhash] at heq
    have hcomp := hashContent_eq_components heq
    rcases hcomp with ⟨-, hsum⟩
    rw [List.getLastD_concat, List.getLastD_concat] at hsum
    cases rest with
    | nil => simp at hsum; omega
    | cons r rs => simp at hsum; omega

/-- Witness for C8 amended: a genuinely different text evicts the entry. -/
theorem invalidateByContent_spec_witness :
    (invalidateByContent collisionCache "script" [1, 2]).lookup "script" = none := by
  have h := (invalidateByContent_spec collisionCache "script"
    ⟨(), 0, hashContent collisionA, "main"⟩ [1, 2] rfl).1
  rw [h, if_neg (by decide)]

theorem jsIncludes_append_right {a pat : String} (b : String)
    (h : jsIncludes a pat = true) : jsIncludes (a ++ b) pat = true := by
  unfold jsIncludes at h ⊢
  rw [String.data_append]
  exact containsSub_append_right b.data h

theorem raceTimeoutMsg_includes_timeout (t : ℕ) :
    jsIncludes (raceTimeoutMsg t) "timeout" = true := by
  unfold raceTimeoutMsg
  exact jsIncludes_append_right "ms"
    (jsIncludes_append_right (toString t) (by decide))

/-- C2 counterexample: the error a caller observes on expiry is the
rewrapped `Script execution exceeded time limit (Xs)`, not the internal
`Script execution timeout after Xms`; and with bound 0 an
immediately-settled producer still wins the race. -/
theorem executeWithTimeout_counterexample :
    executeWithTimeout 0 0 (Except.ok (42 : ℕ)) = .ok 42
    ∧ executeWithTimeout 2000 3000 (Except.ok (42 : ℕ)) =
        .error "Script execution exceeded time limit (2s)"
    ∧ raceTimeoutMsg 2000 = "Script execution timeout after 2000ms"
    ∧ ("Script execution exceeded time limit (2s)" : String) ≠
        "Script execution timeout after 2000ms" :=
  ⟨rfl, rfl, by decide, by decide⟩

/-- C2 amended: `executeWithTimeout` completes with the producer's value
iff the producer resolves within the bound; when the bound elapses first
the caller observes the rewrapped
`Script execution exceeded time limit (t/1000 s)` error (the internal
race rejection `Script execution timeout after Xms` is caught and
replaced); a call with bound 0 fails only for producers that do not
settle immediately. -/
theorem executeWithTimeout_spec {α : Type} (t rt : ℕ) (out : Except String α) :
    (∀ v : α, executeWithTimeout t rt out = .ok v ↔ (rt ≤ t ∧ out = .ok v))
    ∧ (t < rt → executeWithTimeout t rt out = .error (timeLimitMsg t)) := by
  constructor
  · intro v
    unfold executeWithTimeout promiseRace
    by_cases hle : rt ≤ t
    · rw [if_pos hle]
      cases out with
      | ok w => simp [hle]
      | error e =>
        by_cases he : jsIncludes e "timeout" = true <;> simp [he, hle]
    · rw [if_neg hle]
      simp [raceTimeoutMsg_includes_timeout t, hle]
  · intro hlt
    unfold executeWithTimeout promiseRace
    rw [if_neg (by omega)]
    simp [raceTimeoutMsg_includes_timeout t]

/-- Witness for C2 amended at a concrete late producer. -/
theorem executeWithTimeout_spec_witness :
    executeWithTimeout 1 5 (Except.ok (0 : ℕ)) = .error (timeLimitMsg 1) :=
  (executeWithTimeout_spec 1 5 (Except.ok (0 : ℕ))).2 (by omega)

/-! Composite-registry claim infrastructure. -/

/-- The value of the first child (in order) that resolves. -/
def firstSuccess (children : List (Except String String)) : Option String :=
  children.findSome? fun r =>
    match r with
    | .ok v => some v
    | .error _ => none

theorem containsSub_iff_infixOf (hay pat : List Char) :
    containsSub hay pat = true ↔ pat <:+: hay := by
  induction hay with
  | nil =>
    simp only [containsSub, List.isEmpty_iff, List.infix_nil]
  | cons c t ih =>
    simp only [containsSub, Bool.or_eq_true, List.isPrefixOf_iff_prefix, ih,
      List.infix_cons_iff]

theorem jsIncludes_of_infixOf {hay pat : String} (h : pat.data <:+: hay.data) :
    jsIncludes hay pat = true :=
  (containsSub_iff_infixOf hay.data pat.data).mpr h

theorem data_infix_append_left {b pat : String} (a : String) (h : pat.data <:+: b.data) :
    pat.data <:+: (a ++ b).data := by
  rw [String.data_append]
  exact h.trans (List.suffix_append a.data b.data).isInfix

theorem joinSemicolon_mem_infixOf {a : String} :
    ∀ l : List String, a ∈ l → a.data <:+: (joinSemicolon l).data := by
  intro l
  induction l with
  | nil => intro h; cases h
  | cons e rest ih =>
    intro hmem
    cases rest with
    | nil =>
      have : a = e := by simpa using hmem
      subst this
      exact List.infix_refl _
    | cons e2 rest2 =>
      rcases List.mem_cons.mp hmem with hae | hmem2
      · subst hae
        show a.data <:+: (a ++ "; " ++ joinSemicolon (e2 :: rest2)).data
        rw [String.data_append]
        exact ((List.prefix_append a.data ("; ").data).isInfix).trans
          (List.prefix_append _ _).isInfix
      · show a.data <:+: (e ++ "; " ++ joinSemicolon (e2 :: rest2)).data
        rw [String.data_append]
        exact (ih hmem2).trans (List.suffix_append _ _).isInfix

/-- The aggregate message produced by a run of the loop with
accumulator `errs` over all-failing children starting at index `i`. -/
def renderedErrors : ℕ → List (Except String String) → List String
  | _, [] => []
  | _, (Except.ok _) :: _ => []
  | i, (Except.error e) :: rest =>
    ("Registry " ++ toString (i + 1) ++ ": " ++ e) :: renderedErrors (i + 1) rest

theorem compositeGo_ok_iff (scriptId : String) :
    ∀ (cs : List (Except String String)) (i : ℕ) (errs : List String) (v : String),
      compositeGo scriptId cs i errs = .ok v ↔ firstSuccess cs = some v := by
  intro cs
  induction cs with
  | nil =>
    intro i errs v
    simp [compositeGo, firstSuccess]
  | cons r rest ih =>
    intro i errs v
    cases r with
    | ok w => simp [compositeGo, firstSuccess, List.findSome?]
    | error e =>
      rw [compositeGo]
      rw [ih (i + 1) _ v]
      simp [firstSuccess, List.findSome?]

theorem compositeGo_all_fail (scriptId : String) :
    ∀ (cs : List (Except String String)) (i : ℕ) (errs : List String),
      (∀ r ∈ cs, ∃ e, r = .error e) →
      compositeGo scriptId cs i errs =
        .error ("Script not found in any registry: " ++ scriptId ++ ". Errors: " ++
          joinSemicolon (errs ++ renderedErrors i cs)) := by
  intro cs
  induction cs with
  | nil => intro i errs _; simp [compositeGo, renderedErrors]
  | cons r rest ih =>
    intro i errs hall
    cases r with
    | ok w =>
      exfalso
      obtain ⟨e, he⟩ := hall (.ok w) (List.mem_cons_self _ _)
      cases he
    | error e =>
      rw [compositeGo, ih (i + 1) _ (fun r hr => hall r (List.mem_cons_of_mem _ hr)),
        renderedErrors]
      simp

theorem mem_renderedErrors {e : String} :
    ∀ (cs : List (Except String String)) (i : ℕ), Except.error e ∈ cs →
      (∀ r ∈ cs, ∃ e2, r = .error e2) →
      ∃ pre : String, (pre ++ e) ∈ renderedErrors i cs := by
  intro cs
  induction cs with
  | nil => intro i h; cases h
  | cons r rest ih =>
    intro i hmem hall
    cases r with
    | ok w =>
      obtain ⟨e2, he2⟩ := hall (.ok w) (List.mem_cons_self _ _)
      cases he2
    | error e3 =>
      rcases List.mem_cons.mp hmem with he | hmem2
      · injection he with he
        subst he
        exact ⟨"Registry " ++ toString (i + 1) ++ ": ", by rw [renderedErrors]; simp⟩
      · obtain ⟨pre, hpre⟩ := ih (i + 1) hmem2 (fun r hr => hall r (List.mem_cons_of_mem _ hr))
        exact ⟨pre, by rw [renderedErrors]; exact List.mem_cons_of_mem _ hpre⟩

/-- C7: a composite registry resolves iff at least one child resolves,
returning the first successful child's result in order; when every
child fails it fails with an aggregate message that contains every
child's error message. -/
theorem compositeResolve_spec (children : List (Except String String)) (scriptId : String) :
    (∀ v, compositeResolve children scriptId = .ok v ↔ firstSuccess children = some v)
    ∧ ((∃ v, compositeResolve children scriptId = .ok v) ↔ ∃ v, Except.ok v ∈ children)
    ∧ ((∀ r ∈ children, ∃ e, r = .error e) →
        ∃ msg, compositeResolve children scriptId = .error msg
          ∧ ∀ e, Except.error e ∈ children → jsIncludes msg e = true) := by
  refine ⟨fun v => compositeGo_ok_iff scriptId children 0 [] v, ?_, ?_⟩
  · constructor
    · rintro ⟨v, hv⟩
      have := (compositeGo_ok_iff scriptId children 0 [] v).mp hv
      clear hv
      induction children with
      | nil => simp [firstSuccess] at this
      | cons r rest ih =>
        cases r with
        | ok w => exact ⟨w, List.mem_cons_self _ _⟩
        | error e =>
          simp only [firstSuccess, List.findSome?] at this ih
          obtain ⟨w, hw⟩ := ih this
          exact ⟨w, List.mem_cons_of_mem _ hw⟩
    · rintro ⟨v, hv⟩
      suffices h : ∃ w, firstSuccess children = some w by
        obtain ⟨w, hw⟩ := h
        exact ⟨w, (compositeGo_ok_iff scriptId children 0 [] w).mpr hw⟩
      clear scriptId
      induction children with
      | nil => cases hv
      | cons r rest ih =>
        cases r with
        | ok w => exact ⟨w, by simp [firstSuccess, List.findSome?]⟩
        | error e =>
          rcases List.mem_cons.mp hv with h | h
          · cases h
          · obtain ⟨w, hw⟩ := ih h
            exact ⟨w, by simpa [firstSuccess, List.findSome?] using hw⟩
  · intro hall
    refine ⟨_, compositeGo_all_fail scriptId children 0 [] hall, ?_⟩
    intro e hmem
    obtain ⟨pre, hpre⟩ := mem_renderedErrors children 0 hmem hall
    apply jsIncludes_of_infixOf
    apply data_infix_append_left
    have h1 : e.data <:+: (pre ++ e).data := by
      rw [String.data_append]
      exact (List.suffix_append _ _).isInfix
    exact h1.trans (joinSemicolon_mem_infixOf _ hpre)

/-- Witness for C7: both halves at concrete registries. -/
theorem compositeResolve_spec_witness :
    compositeResolve [.error "e1", .ok "B", .ok "C"] "xyz" = .ok "B"
    ∧ ∃ msg, compositeResolve [.error "e1", .error "e2"] "xyz" = .error msg
        ∧ jsIncludes msg "e1" = true ∧ jsIncludes msg "e2" = true := by
  constructor
  · exact ((compositeResolve_spec [.error "e1", .ok "B", .ok "C"] "xyz").1 "B").mpr rfl
  · obtain ⟨msg, h1, h2⟩ := (compositeResolve_spec [.error "e1", .error "e2"] "xyz").2.2
      (by rintro r hr; simp only [List.mem_cons, List.not_mem_nil, or_false] at hr;
          rcases hr with h | h <;> exact ⟨_, h⟩)
    exact ⟨msg, h1, h2 "e1" (by simp), h2 "e2" (by simp)⟩

/-- C4: when `importScript` receives a string and a registry is
configured, a string result of `registry.resolve` is used as source; an
object with a string `content` or `script` member yields that member;
any other defined value fails with the unsupported-value error; a
failed (or absent, or undefined-returning) registry lookup falls
through to the raw argument string. -/
theorem resolveImportSource_spec (registryId : String) :
    (∀ s, resolveImportSource (.vstr s) registryId = .ok s)
    ∧ (∀ v c, truthy v = true → getProp v "content" = .vstr c →
        resolveImportSource v registryId = .ok c)
    ∧ (∀ v c, truthy v = true → (∀ s, getProp v "content" ≠ JsVal.vstr s) →
        getProp v "script" = .vstr c → resolveImportSource v registryId = .ok c)
    ∧ (∀ v, (∀ s, v ≠ JsVal.vstr s) → v ≠ .vundefined →
        (∀ s, getProp v "content" ≠ JsVal.vstr s) →
        (∀ s, getProp v "script" ≠ JsVal.vstr s) →
        resolveImportSource v registryId = .error (unsupportedMsg registryId))
    ∧ resolveImportSource .vundefined registryId = .ok registryId := by
  refine ⟨fun s => rfl, ?_, ?_, ?_, rfl⟩
  · intro v c ht hc
    cases v with
    | vobj fields => simp [resolveImportSource, truthy, hc]
    | vstr s => simp [getProp] at hc
    | _ => simp [getProp] at hc
  · intro v c ht hcontent hscript
    cases v with
    | vobj fields =>
      cases hc : getProp (JsVal.vobj fields) "content"
      case vstr s => exact absurd hc (hcontent s)
      all_goals simp [resolveImportSource, truthy, hc, hscript]
    | vstr s => simp [getProp] at hscript
    | _ => simp [getProp] at hscript
  · intro v h1 h2 h3 h4
    cases v with
    | vundefined => exact absurd rfl h2
    | vstr s => exact absurd rfl (h1 s)
    | vnull => rfl
    | vbool b => cases b <;> rfl
    | vnum n =>
      cases n with
      | fin q => by_cases hq : q = 0 <;> simp [resolveImportSource, truthy, getProp, hq]
      | _ => rfl
    | varr elems => rfl
    | vobj fields =>
      cases hc : getProp (JsVal.vobj fields) "content"
      case vstr s => exact absurd hc (h3 s)
      all_goals
        cases hs2 : getProp (JsVal.vobj fields) "script" <;>
          first
          | exact absurd hs2 (h4 _)
          | simp [resolveImportSource, truthy, hc, hs2]

/-- Witness for C4: a number result from the registry is an
unsupported value. -/
theorem resolveImportSource_spec_witness :
    resolveImportSource (.vnum (.fin 5)) "myid" = .error (unsupportedMsg "myid") :=
  (resolveImportSource_spec "myid").2.2.2.1 (.vnum (.fin 5))
    (fun s h => by cases h) (fun h => by cases h)
    (fun s h => by simp [getProp] at h) (fun s h => by simp [getProp] at h)

/-! Parameter-range claim infrastructure (C6). -/

/-- An `int` parameter bounded by `min`/`max`. -/
def intSpec (m M : ℚ) : ParameterSpec :=
  .pdef { mkParam "int" with min := some (.fin m), max := some (.fin M) }

/-- A `float` parameter bounded by `min`/`max`. -/
def floatSpec (m M : ℚ) : ParameterSpec :=
  .pdef { mkParam "float" with min := some (.fin m), max := some (.fin M) }

theorem validateParameter_intSpec_eq (m M : ℚ) (v : JsVal) (name : String) :
    validateParameter v (intSpec m M) name =
      (if !(isIntegerVal v) then
        .error (name ++ " must be an integer, got: " ++ typeofStr v)
      else
        match checkMin (valAsNum v) (some (.fin m)) name v with
        | .error e => .error e
        | .ok _ => checkMax (valAsNum v) (some (.fin M)) name v) := rfl

theorem validateParameter_floatSpec_eq (m M : ℚ) (v : JsVal) (name : String) :
    validateParameter v (floatSpec m M) name =
      (if !(typeofStr v == "number") then
        .error (name ++ " must be a number, got: " ++ typeofStr v)
      else
        match checkMin (valAsNum v) (some (.fin m)) name v with
        | .error e => .error e
        | .ok _ => checkMax (valAsNum v) (some (.fin M)) name v) := rfl

theorem validateParameter_int_ok_iff (name : String) (m M : ℚ) (v : JsVal) :
    validateParameter v (intSpec m M) name = .ok () ↔
      ∃ q : ℚ, v = .vnum (.fin q) ∧ q.den = 1 ∧ m ≤ q ∧ q ≤ M := by
  rw [validateParameter_intSpec_eq]
  cases v with
  | vnum n =>
    cases n with
    | fin q =>
      by_cases hden : q.den = 1
      · by_cases h1 : q < m
        · simp [isIntegerVal, checkMin, valAsNum, jsLt, hden, h1, not_le.mpr h1]
        · by_cases h2 : M < q
          · simp [isIntegerVal, checkMin, checkMax, valAsNum, jsLt, jsGt, hden, h1,
              not_le.mpr h2]
          · simp [isIntegerVal, checkMin, checkMax, valAsNum, jsLt, jsGt, hden, h1, h2,
              not_lt.mp h1, not_lt.mp h2]
      · simp [isIntegerVal, hden]
    | nan => simp [isIntegerVal]
    | posInf => simp [isIntegerVal]
    | negInf => simp [isIntegerVal]
  | _ => simp [isIntegerVal]

theorem validateParameter_float_ok_iff (name : String) (m M : ℚ) (v : JsVal) :
    validateParameter v (floatSpec m M) name = .ok () ↔
      (v = .vnum .nan ∨ ∃ q : ℚ, v = .vnum (.fin q) ∧ m ≤ q ∧ q ≤ M) := by
  rw [validateParameter_floatSpec_eq]
  cases v with
  | vnum n =>
    cases n with
    | fin q =>
      by_cases h1 : q < m
      · simp [typeofStr, checkMin, valAsNum, jsLt, h1, not_le.mpr h1]
      · by_cases h2 : M < q
        · simp [typeofStr, checkMin, checkMax, valAsNum, jsLt, jsGt, h1, not_le.mpr h2]
        · simp [typeofStr, checkMin, checkMax, valAsNum, jsLt, jsGt, h1, h2,
            not_lt.mp h1, not_lt.mp h2]
    | nan => simp [typeofStr, checkMin, checkMax, valAsNum, jsLt, jsGt]
    | posInf => simp [typeofStr, checkMin, checkMax, valAsNum, jsLt, jsGt]
    | negInf => simp [typeofStr, checkMin, checkMax, valAsNum, jsLt, jsGt]
  | _ => simp [typeofStr, validateParameter]

theorem data_isPrefixOf_append (a b : String) (c : String)
    (h : a.data.isPrefixOf b.data = true) : a.data.isPrefixOf (b ++ c).data = true := by
  rw [String.data_append]
  exact isPrefixOf_append c.data h

theorem name_isPrefixOf_self_append (name r : String) :
    name.data.isPrefixOf (name ++ r).data = true := by
  rw [String.data_append, List.isPrefixOf_iff_prefix]
  exact List.prefix_append _ _

theorem checkMin_error_named {n : JsNum} {mi : Option JsNum} {name : String} {v : JsVal}
    {e : String} (h : checkMin n mi name v = .error e) :
    name.data.isPrefixOf e.data = true := by
  cases mi with
  | none => simp [checkMin] at h
  | some m =>
    simp only [checkMin] at h
    by_cases hlt : jsLt n m = true
    · rw [if_pos hlt] at h
      injection h with h
      subst h
      exact data_isPrefixOf_append _ _ _ (data_isPrefixOf_append _ _ _
        (data_isPrefixOf_append _ _ _ (name_isPrefixOf_self_append name _)))
    · rw [if_neg hlt] at h
      cases h

theorem checkMax_error_named {n : JsNum} {ma : Option JsNum} {name : String} {v : JsVal}
    {e : String} (h : checkMax n ma name v = .error e) :
    name.data.isPrefixOf e.data = true := by
  cases ma with
  | none => simp [checkMax] at h
  | some m =>
    simp only [checkMax] at h
    by_cases hgt : jsGt n m = true
    · rw [if_pos hgt] at h
      injection h with h
      subst h
      exact data_isPrefixOf_append _ _ _ (data_isPrefixOf_append _ _ _
        (data_isPrefixOf_append _ _ _ (name_isPrefixOf_self_append name _)))
    · rw [if_neg hgt] at h
      cases h

theorem validateParameter_int_error_named (name : String) (m M : ℚ) (v : JsVal) (e : String)
    (h : validateParameter v (intSpec m M) name = .error e) :
    name.data.isPrefixOf e.data = true := by
  rw [validateParameter_intSpec_eq] at h
  by_cases hi : isIntegerVal v = true
  · rw [if_neg (by simp [hi])] at h
    split at h
    · rename_i e2 heq
      injection h with h
      subst h
      exact checkMin_error_named heq
    · exact checkMax_error_named h
  · rw [if_pos (by simp [Bool.not_eq_true] at hi ⊢; exact hi)] at h
    injection h with h
    subst h
    exact data_isPrefixOf_append _ _ _ (name_isPrefixOf_self_append name _)

theorem validateParameter_float_error_named (name : String) (m M : ℚ) (v : JsVal) (e : String)
    (h : validateParameter v (floatSpec m M) name = .error e) :
    name.data.isPrefixOf e.data = true := by
  rw [validateParameter_floatSpec_eq] at h
  by_cases hi : (typeofStr v == "number") = true
  · rw [if_neg (by simp_all)] at h
    split at h
    · rename_i e2 heq
      injection h with h
      subst h
      exact checkMin_error_named heq
    · exact checkMax_error_named h
  · rw [if_pos (by simp_all)] at h
    injection h with h
    subst h
    exact data_isPrefixOf_append _ _ _ (name_isPrefixOf_self_append name _)

/-- C6 counterexample: `NaN` is accepted by validation of a bounded
`float` parameter (the comparisons `NaN < min` and `NaN > max` are both
false and no finiteness test exists), although `NaN` is not a finite
value in `[min, max]`. -/
theorem validateParameter_nan_accepted :
    validateParameter (.vnum .nan) (floatSpec 0 1) "x" = .ok ()
    ∧ ∀ q : ℚ, JsNum.nan ≠ JsNum.fin q :=
  ⟨rfl, fun q h => by cases h⟩

/-- C6 amended: for a bounded `int` parameter, validation accepts iff
the value is an integral finite number within `[min, max]` (as the
claim states); for a bounded `float` parameter, validation accepts iff
the value is a finite number within `[min, max]` **or `NaN`**; every
rejection carries an error message starting with the parameter name. -/
theorem validateParameter_range_spec (name : String) (m M : ℚ) (v : JsVal) :
    (validateParameter v (intSpec m M) name = .ok () ↔
      ∃ q : ℚ, v = .vnum (.fin q) ∧ q.den = 1 ∧ m ≤ q ∧ q ≤ M)
    ∧ (validateParameter v (floatSpec m M) name = .ok () ↔
      (v = .vnum .nan ∨ ∃ q : ℚ, v = .vnum (.fin q) ∧ m ≤ q ∧ q ≤ M))
    ∧ (∀ e, validateParameter v (intSpec m M) name = .error e →
        name.data.isPrefixOf e.data = true)
    ∧ (∀ e, validateParameter v (floatSpec m M) name = .error e →
        name.data.isPrefixOf e.data = true) :=
  ⟨validateParameter_int_ok_iff name m M v, validateParameter_float_ok_iff name m M v,
    fun e h => validateParameter_int_error_named name m M v e h,
    fun e h => validateParameter_float_error_named name m M v e h⟩

/-- Witness for C6 amended: a concrete in-range integer is accepted. -/
theorem validateParameter_range_spec_witness :
    validateParameter (.vnum (.fin 3)) (intSpec 0 5) "x" = .ok () :=
  (validateParameter_range_spec "x" 0 5 (.vnum (.fin 3))).1.mpr
    ⟨3, rfl, by norm_num, by norm_num, by norm_num⟩

theorem lookup_append_of_isSome {α : Type} {l1 : List (String × α)} (l2 : List (String × α))
    {k : String} (h : (l1.lookup k).isSome = true) :
    ((l1 ++ l2).lookup k).isSome = true := by
  induction l1 with
  | nil => simp [List.lookup] at h
  | cons p rest ih =>
    rcases p with ⟨k0, v0⟩
    by_cases hk : (k == k0) = true
    · simp [List.lookup, hk]
    · simp only [List.lookup, hk, List.cons_append] at h ⊢
      exact ih h

theorem lookup_append_singleton {α : Type} (l : List (String × α)) (k : String) (v : α) :
    ((l ++ [(k, v)]).lookup k).isSome = true := by
  induction l with
  | nil => simp [List.lookup]
  | cons p rest ih =>
    rcases p with ⟨k0, v0⟩
    by_cases hk : (k == k0) = true <;> simp [List.lookup, hk, ih]

/-- After `applyDefaults`, every schema key is present in the map. -/
theorem applyDefaults_key_present :
    ∀ (schema : List (String × ParameterSpec)) (acc : Rec) (k : String),
      ((schema.lookup k).isSome = true ∨ (acc.lookup k).isSome = true) →
      ((schema.foldl
          (fun result kv =>
            if (result.lookup kv.1).isSome then result
            else result ++ [(kv.1, getDefault kv.2)]) acc).lookup k).isSome = true := by
  intro schema
  induction schema with
  | nil =>
    intro acc k h
    rcases h with h | h
    · simp [List.lookup] at h
    · exact h
  | cons p rest ih =>
    intro acc k h
    rcases p with ⟨k0, s0⟩
    rw [List.foldl_cons]
    set acc2 := if ((acc.lookup k0).isSome : Bool) = true then acc
      else acc ++ [(k0, getDefault s0)] with hacc2
    have hpres : (acc.lookup k).isSome = true → (acc2.lookup k).isSome = true := by
      intro hl
      rw [hacc2]
      split
      · exact hl
      · exact lookup_append_of_isSome _ hl
    rcases h with h | h
    · by_cases hk : (k == k0) = true
      · apply ih
        right
        have hkk : k = k0 := by simpa using hk
        subst hkk
        rw [hacc2]
        by_cases hin : (acc.lookup k).isSome = true
        · rw [if_pos hin]; exact hin
        · rw [if_neg hin]
          exact lookup_append_singleton acc k (getDefault s0)
      · apply ih
        left
        simpa [List.lookup, hk] using h
    · exact ih acc2 k (Or.inr (hpres h))

/-- C5 (code bug): `executeWithValidation` never raises
`Missing required input` — `applyDefaults` first inserts a kind-zero
default for every schema key, so the required-input branch is dead and
the entry function runs with the injected default.  Concretely, a
visible `string` input with no declared default and an empty input map
yields a successful run on `""` instead of the documented failure. -/
theorem executeWithValidation_missing_required_runs :
    (mkParam "string").default = none
    ∧ shouldShowParameter (.pdef (mkParam "string")) [] = true
    ∧ executeWithValidationModel [("name", .pdef (mkParam "string"))] [] =
        .ok [("name", .vstr "")]
    ∧ executeWithValidationModel
        [("count", .pdef { mkParam "int" with min := some (.fin 1), max := some (.fin 5) })]
        [] = .error "Input validation failed: count must be >= 1, got: 0" :=
  ⟨rfl, rfl, rfl, rfl⟩

/-- C3: a frame importing byte-identical content twice — the first of
the imports succeeds (the count of successful imports reaches 1) and
the second fails with the recursive-import error. -/
theorem importScript_recursive_content (L : ExecutionLimits)
    (validate : List ℕ → Option String) (c : List ℕ)
    (h2 : 2 ≤ L.maxImportedScripts) (h1 : 1 ≤ L.maxRecursionDepth)
    (hv : validate c = none) :
    (runTop L validate (.imp c .nil (.imp c .nil .nil))).1 = .error recursiveImportMsg
    ∧ (runTop L validate (.imp c .nil (.imp c .nil .nil))).2.1 = 1 := by
  unfold runTop
  simp only [runFrame]
  simp [newTracker, hv,
    show ¬0 ≥ L.maxImportedScripts from by omega,
    show ¬0 ≥ L.maxRecursionDepth from by omega,
    show ¬1 ≥ L.maxImportedScripts from by omega]

/-- Witness for C3 at the default limits and a concrete one-byte script. -/
theorem importScript_recursive_content_witness :
    (runTop defaultLimits (fun _ => none) (.imp [49] .nil (.imp [49] .nil .nil))).1 =
        .error recursiveImportMsg
    ∧ (runTop defaultLimits (fun _ => none) (.imp [49] .nil (.imp [49] .nil .nil))).2.1 = 1 :=
  importScript_recursive_content defaultLimits (fun _ => none) [49]
    (by norm_num [defaultLimits]) (by norm_num [defaultLimits]) rfl

/-- Limits with `maxImportedScripts = 1`. -/
def limitsC1 : ExecutionLimits := ⟨30000, 10, 1, 104857600⟩

/-- A script that imports one script whose entry itself imports another. -/
def progC1 : SProg := .imp [49] (.imp [50] .nil .nil) .nil

/-- C1 counterexample: each context frame gets its own freshly-created
tracker, so with `maxImportedScripts = 1` a top-level call still
performs 2 successful imports (one per frame), so the whole-invocation
count of imports exceeds the limit, which a single shared tracker
would make impossible. -/
theorem import_tracker_not_shared :
    limitsC1.maxImportedScripts = 1
    ∧ (∃ t, (runTop limitsC1 (fun _ => none) progC1).1 = .ok t)
    ∧ (runTop limitsC1 (fun _ => none) progC1).2.1 = 2 :=
  ⟨rfl, ⟨_, rfl⟩, rfl⟩

/-- C1 amended: the limits are enforced per context frame — in every
frame of a top-level call, at every suspension point the frame's own
tracker satisfies `importCount ≤ maxImportedScripts` and
`|importStack| ≤ maxRecursionDepth` (each nested callable starts a
fresh tracker at zero). -/
theorem import_tracker_per_frame_bounds (L : ExecutionLimits)
    (validate : List ℕ → Option String) (p : SProg) :
    ∀ (t0 : ImportTracker) (g0 : ℕ),
      t0.importCount ≤ L.maxImportedScripts →
      t0.importStack.length ≤ L.maxRecursionDepth →
      ∀ s ∈ (runFrame L validate p t0 g0).2.2,
        s.importCount ≤ L.maxImportedScripts ∧
        s.importStack.length ≤ L.maxRecursionDepth := by
  induction p with
  | nil =>
    intro t0 g0 hc hs s hmem
    simp only [runFrame, List.mem_singleton] at hmem
    subst hmem
    exact ⟨hc, hs⟩
  | imp content body rest ihb ihr =>
    intro t0 g0 hc hs s hmem
    simp only [runFrame] at hmem
    by_cases h1 : t0.importCount ≥ L.maxImportedScripts
    · rw [if_pos h1] at hmem
      simp only [List.mem_singleton] at hmem
      subst hmem
      exact ⟨hc, hs⟩
    · rw [if_neg h1] at hmem
      by_cases h2 : t0.importStack.length ≥ L.maxRecursionDepth
      · rw [if_pos h2] at hmem
        simp only [List.mem_singleton] at hmem
        subst hmem
        exact ⟨hc, hs⟩
      · rw [if_neg h2] at hmem
        by_cases h3 : hashContent content ∈ t0.importedScripts
        · rw [if_pos h3] at hmem
          simp only [List.mem_singleton] at hmem
          subst hmem
          exact ⟨hc, hs⟩
        · rw [if_neg h3] at hmem
          split at hmem
          · simp only [List.mem_singleton] at hmem
            subst hmem
            exact ⟨hc, hs⟩
          · split at hmem
            · rename_i e g2 tr heq
              rcases List.mem_cons.mp hmem with h | hmem
              · subst h; exact ⟨hc, hs⟩
              rcases List.mem_cons.mp hmem with h | hmem
              · subst h
                constructor
                · simp; omega
                · simp; omega
              rcases List.mem_cons.mp hmem with h | hmem
              · subst h
                constructor
                · simp; omega
                · simpa using hs
              · have := ihb newTracker (g0 + 1) (by simp [newTracker]) (by simp [newTracker]) s
                rw [heq] at this
                exact this hmem
            · rename_i t' g2 tr heq
              rcases List.mem_cons.mp hmem with h | hmem
              · subst h; exact ⟨hc, hs⟩
              rcases List.mem_cons.mp hmem with h | hmem
              · subst h
                constructor
                · simp; omega
                · simp; omega
              rcases List.mem_cons.mp hmem with h | hmem
              · subst h
                constructor
                · simp; omega
                · simpa using hs
              rcases List.mem_append.mp hmem with hmem | hmem
              · have := ihb newTracker (g0 + 1) (by simp [newTracker]) (by simp [newTracker]) s
                rw [heq] at this
                exact this hmem
              · exact ihr ⟨t0.importCount + 1, t0.importStack,
                  hashContent content :: t0.importedScripts⟩ g2 (by simp; omega)
                  (by simpa using hs) s hmem

/-- Witness for C1 amended at the default limits. -/
theorem import_tracker_per_frame_bounds_witness :
    newTracker.importCount ≤ defaultLimits.maxImportedScripts ∧
      newTracker.importStack.length ≤ defaultLimits.maxRecursionDepth :=
  import_tracker_per_frame_bounds defaultLimits (fun _ => none) (.imp [49] .nil .nil)
    newTracker 0 (by decide) (by decide) newTracker (by decide)

/-- C9: the composed validator pipeline `maskStrings ∘ stripComments`
equals the rendering of the validator's own character classification:
every character the machines classify as code — in particular every
`/`, quote, backtick, brace, parenthesis and semicolon outside comments
and string literals — passes through unchanged and in its original
order, string-literal bodies become spaces, string delimiters remain
quote characters, and only comment-classified characters are dropped. -/
theorem validator_pipeline_classification (content : List Char) :
    maskStrings (stripComments content) = render (classify content)
    ∧ (classify content).map Prod.fst = content
    ∧ render (classify content) = (classify content).filterMap fun p =>
        match p.2 with
        | CTag.code => some p.1
        | CTag.strQuote => some p.1
        | CTag.strBody => some ' '
        | CTag.comment => none :=
  ⟨maskStrings_stripComments content, classify_map_fst content, render_eq_filterMap _⟩

end Synthase
